import Mathlib

/-!
Shallow embedding of the `asyncinput` library core
(`src/libasyncinput_posix.c`) together with theorems settling the
specification claims about it.

The definitions mirror the C source: the bounded ring buffer
(`ring_push` / `ring_pop_many`), the `/dev/input/mice` legacy pointer
decoder (`mice_worker`'s packet loop), the xkb key-event layer
(`maybe_emit_key_event`), the evdev packet decode performed by the
worker, the device registry operations (`scan_devices`,
`handle_inotify_event`'s create and delete paths,
`ni_set_device_filter`), and the public entry points (`ni_init`,
`ni_poll`, `ni_poll_key_events`, `ni_enable_mice`).
-/

namespace Asyncinput

/-- The canonical event record (`struct ni_event`).  The fields
`extra`, `x`, `y` are used by the unified mouse events emitted by the
legacy pointer reader. -/
structure NiEvent where
  device_id : Int
  type : Int
  code : Int
  value : Int
  timestamp_ns : Int
  extra : Int := 0
  x : Int := 0
  y : Int := 0
deriving DecidableEq, Repr

/-- Event type constants; on Linux these alias `EV_*` from
`linux/input-event-codes.h`. -/
def NI_EV_SYN : Int := 0
def NI_EV_KEY : Int := 1
def NI_EV_REL : Int := 2
def NI_EV_ABS : Int := 3
def NI_EV_MSC : Int := 4

/-- Modelled from the spec: the public header (not present under
`src/`) defines a separate unified mouse-event kind `NI_EV_MOUSE`
distinct from the five canonical kinds SYN/KEY/REL/ABS/MSC of the
spec's data model; only its distinctness matters to the claims, so it
is given the next free tag. -/
def NI_EV_MOUSE : Int := 5

/-- Modelled from the spec: the unified mouse-event codes
`NI_MOUSE_BUTTON` and `NI_MOUSE_MOVE` from the public header (not
present under `src/`); only the fact that they are carried by events
of kind `NI_EV_MOUSE` matters to the claims. -/
def NI_MOUSE_BUTTON : Int := 1
def NI_MOUSE_MOVE : Int := 2

/-- `REL_*` axis constants from `linux/input-event-codes.h`. -/
def NI_REL_X : Int := 0
def NI_REL_Y : Int := 1
def NI_REL_WHEEL : Int := 8

/-- `BTN_*` button constants from `linux/input-event-codes.h`
(`BTN_LEFT = 0x110` and so on). -/
def NI_BTN_LEFT : Int := 272
def NI_BTN_RIGHT : Int := 273
def NI_BTN_MIDDLE : Int := 274

/-! ## The bounded ring (`struct ringbuf` / `struct keyringbuf`)

The C source contains two textually identical rings, one for
`struct ni_event` and one for `struct ni_key_event`; they are embedded
once, polymorphically.  The storage array is a total function
`Nat → α` (the C array of size `RING_SIZE`), `head` and `tail` are the
C `int` indices. -/

def RING_SIZE : Nat := 1024

structure Ringbuf (α : Type) where
  ev : Nat → α
  head : Nat
  tail : Nat

/-- `ring_init` / `keyring_init`: `memset` to zero. -/
def ring_init (dflt : α) : Ringbuf α := ⟨fun _ => dflt, 0, 0⟩

/-- `ring_push`: stores at `head` and advances it, unless the ring is
full (`next == tail`), in which case the incoming event is dropped. -/
def ring_push (r : Ringbuf α) (e : α) : Ringbuf α :=
  let next := (r.head + 1) % RING_SIZE
  if next = r.tail then r
  else { r with ev := fun i => if i = r.head then e else r.ev i, head := next }

/-- `ring_pop_many`: copies up to `max` events out, oldest first,
advancing `tail`; returns the copied list (whose length is the C
return value `n`) and the updated ring. -/
def ring_pop_many (r : Ringbuf α) (max : Nat) : List α × Ringbuf α :=
  match max with
  | 0 => ([], r)
  | m + 1 =>
    if r.tail = r.head then ([], r)
    else
      let e := r.ev r.tail
      let r' := { r with tail := (r.tail + 1) % RING_SIZE }
      let p := ring_pop_many r' m
      (e :: p.1, p.2)

/-- The C code's own fullness test inside `ring_push`. -/
def ringFull (r : Ringbuf α) : Prop := (r.head + 1) % RING_SIZE = r.tail

instance (r : Ringbuf α) : Decidable (ringFull r) := by
  unfold ringFull; infer_instance

/-- Pushing a whole list of events in order (repeated `ring_push`). -/
def pushMany (r : Ringbuf α) (l : List α) : Ringbuf α :=
  l.foldl ring_push r

/-! ### State of a ring filled from empty

A ring freshly built by pushing the list `l` into the empty ring
stores the first `min l.length 1023` elements at indices `0, 1, …`
(`tail` stays `0`); once 1023 elements are stored the ring is full and
every further push is dropped. -/

theorem pushMany_append_single (r : Ringbuf α) (l : List α) (e : α) :
    pushMany r (l ++ [e]) = ring_push (pushMany r l) e := by
  simp [pushMany, List.foldl_append]

theorem pushMany_empty_state (dflt : α) (l : List α) :
    (pushMany (ring_init dflt) l).head = min l.length (RING_SIZE - 1) ∧
    (pushMany (ring_init dflt) l).tail = 0 ∧
    ∀ i, i < min l.length (RING_SIZE - 1) →
      (pushMany (ring_init dflt) l).ev i = l.getD i dflt := by
  induction l using List.reverseRecOn with
  | nil =>
    refine ⟨rfl, rfl, ?_⟩
    intro i hi
    simp at hi
  | append_singleton xs x ih =>
    obtain ⟨ihh, iht, ihev⟩ := ih
    rw [pushMany_append_single]
    by_cases hfull : min xs.length (RING_SIZE - 1) = RING_SIZE - 1
    · -- the ring already holds RING_SIZE - 1 elements: the push is dropped
      have hx : xs.length ≥ RING_SIZE - 1 := by omega
      have hnext : ((pushMany (ring_init dflt) xs).head + 1) % RING_SIZE
          = (pushMany (ring_init dflt) xs).tail := by
        rw [ihh, iht, hfull]
        simp [RING_SIZE]
      simp only [ring_push]
      rw [if_pos hnext]
      refine ⟨?_, iht, ?_⟩
      · rw [ihh]
        simp [RING_SIZE] at hfull ⊢
        omega
      · intro i hi
        have hi' : i < min xs.length (RING_SIZE - 1) := by
          simp at hi ⊢
          omega
        rw [ihev i hi']
        have hlen : i < xs.length := by
          simp at hi'
          omega
        rw [List.getD_append _ _ _ _ hlen]
    · -- room remains: the element is stored at index `head`
      have hm : min xs.length (RING_SIZE - 1) = xs.length := by
        simp [RING_SIZE] at hfull ⊢
        omega
      have hlt : xs.length < RING_SIZE - 1 := by
        simp [RING_SIZE] at hfull ⊢
        omega
      have hnext : ((pushMany (ring_init dflt) xs).head + 1) % RING_SIZE
          = xs.length + 1 := by
        rw [ihh, hm, Nat.mod_eq_of_lt]
        simp [RING_SIZE] at hlt ⊢
        omega
      have hne : ((pushMany (ring_init dflt) xs).head + 1) % RING_SIZE
          ≠ (pushMany (ring_init dflt) xs).tail := by
        rw [hnext, iht]
        omega
      simp only [ring_push]
      rw [if_neg hne]
      refine ⟨?_, iht, ?_⟩
      · simp only [hnext]
        simp [RING_SIZE] at hlt ⊢
        omega
      · intro i hi
        have hi' : i < xs.length + 1 := by
          simp at hi
          omega
        dsimp only
        by_cases hih : i = (pushMany (ring_init dflt) xs).head
        · rw [if_pos hih]
          have hieq : i = xs.length := by rw [hih, ihh, hm]
          rw [hieq, List.getD_append_right _ _ _ _ (Nat.le_refl _)]
          simp
        · rw [if_neg hih]
          have hilt : i < xs.length := by
            rw [ihh, hm] at hih
            omega
          rw [ihev i (by omega : i < min xs.length (RING_SIZE - 1)), List.getD_append _ _ _ _ hilt]

/-- Popping from a ring whose occupied region does not wrap around
(`tail ≤ head < RING_SIZE`) returns the stored elements from `tail`
on, oldest first, up to `max` of them. -/
theorem ring_pop_many_no_wrap (f : Nat → α) (max t h : Nat)
    (hth : t ≤ h) (hh : h < RING_SIZE) :
    (ring_pop_many ⟨f, h, t⟩ max).1
      = (List.range (min max (h - t))).map (fun k => f (t + k)) := by
  induction max generalizing t with
  | zero => simp [ring_pop_many]
  | succ m ih =>
    by_cases hte : t = h
    · subst hte
      simp [ring_pop_many]
    · have htlt : t < h := lt_of_le_of_ne hth hte
      have hmod : (t + 1) % RING_SIZE = t + 1 := Nat.mod_eq_of_lt (by omega)
      have hrec := ih (t + 1) (by omega)
      have hmin : min (m + 1) (h - t) = min m (h - (t + 1)) + 1 := by omega
      simp only [ring_pop_many, if_neg hte]
      rw [hmod, hrec, hmin, List.range_succ_eq_map]
      simp only [List.map_cons, List.map_map, Nat.add_zero]
      congr 1
      apply List.map_congr_left
      intro k _
      simp only [Function.comp_apply]
      congr 1
      omega

/-- Reading back a prefix of a list through `getD`. -/
theorem map_getD_range_eq_take (l : List α) (d : α) (n : Nat) (hn : n ≤ l.length) :
    (List.range n).map (fun k => l.getD k d) = l.take n := by
  induction l generalizing n with
  | nil =>
    have : n = 0 := by simpa using hn
    simp [this]
  | cons a tl ih =>
    cases n with
    | zero => simp
    | succ m =>
      rw [List.range_succ_eq_map]
      simp only [List.map_cons, List.map_map, List.take_succ_cons]
      congr 1
      rw [← ih m (by simpa using hn)]
      apply List.map_congr_left
      intro k _
      rfl

/-- `ring_pop_many_no_wrap` restated for a ring given by its
projections. -/
theorem ring_pop_many_no_wrap' (r : Ringbuf α) (max : Nat)
    (hth : r.tail ≤ r.head) (hh : r.head < RING_SIZE) :
    (ring_pop_many r max).1
      = (List.range (min max (r.head - r.tail))).map (fun k => r.ev (r.tail + k)) :=
  ring_pop_many_no_wrap r.ev max r.tail r.head hth hh

/-- The all-zero event (`struct ni_event ev = {0}` / the ring storage
after `memset`). -/
def zeroEvent : NiEvent := ⟨0, 0, 0, 0, 0, 0, 0, 0⟩

/-- C1: `ring_push` on a full ring (the code's fullness test
`(head + 1) % RING_SIZE == tail`) drops the incoming event and leaves
the ring — in particular all stored events — unchanged; and after
pushing strictly more than the ring's capacity `RING_SIZE - 1 = 1023`
of events into the empty ring with no intervening pop, `ring_pop_many`
with any `max ≥ 1023` returns exactly `RING_SIZE - 1` records, namely
the oldest pushed events in push order. -/
theorem ring_overflow_drops_newest_keeps_oldest
    (r : Ringbuf NiEvent) (e : NiEvent) (l : List NiEvent) (max : Nat)
    (hfull : ringFull r) (hlen : RING_SIZE - 1 < l.length)
    (hmax : RING_SIZE - 1 ≤ max) :
    ring_push r e = r ∧
    (ring_pop_many (pushMany (ring_init zeroEvent) l) max).1
        = l.take (RING_SIZE - 1) ∧
    (ring_pop_many (pushMany (ring_init zeroEvent) l) max).1.length
        = RING_SIZE - 1 := by
  have hf : (r.head + 1) % RING_SIZE = r.tail := hfull
  have hpush : ring_push r e = r := by
    simp only [ring_push]
    rw [if_pos hf]
  obtain ⟨hh, ht, hev⟩ := pushMany_empty_state zeroEvent l
  have hmin : min l.length (RING_SIZE - 1) = RING_SIZE - 1 := by omega
  rw [hmin] at hh hev
  have hpop := ring_pop_many_no_wrap' (pushMany (ring_init zeroEvent) l) max
      (by rw [ht, hh]; omega) (by rw [hh]; simp [RING_SIZE])
  rw [ht, hh] at hpop
  have hmin2 : min max (RING_SIZE - 1 - 0) = RING_SIZE - 1 := by omega
  rw [hmin2] at hpop
  have heq : (List.range (RING_SIZE - 1)).map
        (fun k => (pushMany (ring_init zeroEvent) l).ev (0 + k))
      = (List.range (RING_SIZE - 1)).map (fun k => l.getD k zeroEvent) := by
    apply List.map_congr_left
    intro k hk
    rw [List.mem_range] at hk
    rw [Nat.zero_add, hev k hk]
  rw [hpop, heq, map_getD_range_eq_take _ _ _ (by omega)]
  refine ⟨hpush, rfl, ?_⟩
  rw [List.length_take]
  omega

/-- A concrete full ring for the C1 witness. -/
def fullRing1023 : Ringbuf NiEvent := ⟨fun _ => zeroEvent, RING_SIZE - 1, 0⟩

/-- Witness for C1 at a concrete input: 1024 pushed events, capacity
1023, `max = 1023`. -/
theorem ring_overflow_drops_newest_keeps_oldest_witness :
    ringFull fullRing1023 ∧
    RING_SIZE - 1 < (List.replicate RING_SIZE zeroEvent).length ∧
    RING_SIZE - 1 ≤ 1023 ∧
    (ring_push fullRing1023 zeroEvent = fullRing1023 ∧
     (ring_pop_many (pushMany (ring_init zeroEvent)
         (List.replicate RING_SIZE zeroEvent)) 1023).1
        = (List.replicate RING_SIZE zeroEvent).take (RING_SIZE - 1) ∧
     (ring_pop_many (pushMany (ring_init zeroEvent)
         (List.replicate RING_SIZE zeroEvent)) 1023).1.length
        = RING_SIZE - 1) :=
  ⟨by decide, by rw [List.length_replicate]; decide, by decide,
   ring_overflow_drops_newest_keeps_oldest fullRing1023 zeroEvent _ 1023
     (by decide) (by rw [List.length_replicate]; decide) (by decide)⟩

/-- C9: push-then-pop round trip.  Any sequence of events pushed into
the empty ring whose length does not exceed the capacity
`RING_SIZE - 1` is returned by `ring_pop_many` exactly, in push order,
preserving order and content. -/
theorem ring_round_trip_preserves_sequence
    (l : List NiEvent) (max : Nat)
    (hlen : l.length ≤ RING_SIZE - 1) (hmax : l.length ≤ max) :
    (ring_pop_many (pushMany (ring_init zeroEvent) l) max).1 = l := by
  obtain ⟨hh, ht, hev⟩ := pushMany_empty_state zeroEvent l
  have hmin : min l.length (RING_SIZE - 1) = l.length := by omega
  rw [hmin] at hh hev
  have hpop := ring_pop_many_no_wrap' (pushMany (ring_init zeroEvent) l) max
      (by rw [ht, hh]; omega)
      (by rw [hh]; have hrs : RING_SIZE = 1024 := rfl; omega)
  rw [ht, hh] at hpop
  have hmin2 : min max (l.length - 0) = l.length := by omega
  rw [hmin2] at hpop
  have heq : (List.range l.length).map
        (fun k => (pushMany (ring_init zeroEvent) l).ev (0 + k))
      = (List.range l.length).map (fun k => l.getD k zeroEvent) := by
    apply List.map_congr_left
    intro k hk
    rw [List.mem_range] at hk
    rw [Nat.zero_add, hev k hk]
  rw [hpop, heq, map_getD_range_eq_take _ _ _ (Nat.le_refl _), List.take_length]

/-- Witness for C9: a press/release pair round-trips through the ring
unchanged. -/
theorem ring_round_trip_preserves_sequence_witness :
    ([⟨0, 1, 30, 1, 100, 0, 0, 0⟩, ⟨0, 1, 30, 0, 200, 0, 0, 0⟩] : List NiEvent).length
        ≤ RING_SIZE - 1 ∧
    ([⟨0, 1, 30, 1, 100, 0, 0, 0⟩, ⟨0, 1, 30, 0, 200, 0, 0, 0⟩] : List NiEvent).length ≤ 2 ∧
    (ring_pop_many (pushMany (ring_init zeroEvent)
        [⟨0, 1, 30, 1, 100, 0, 0, 0⟩, ⟨0, 1, 30, 0, 200, 0, 0, 0⟩]) 2).1
      = [⟨0, 1, 30, 1, 100, 0, 0, 0⟩, ⟨0, 1, 30, 0, 200, 0, 0, 0⟩] :=
  ⟨by decide, by decide,
   ring_round_trip_preserves_sequence _ 2 (by decide) (by decide)⟩

/-! ## The legacy pointer reader (`mice_worker`)

`mice_worker` accumulates bytes from `/dev/input/mice` into `pkt[]`;
as soon as `have` reaches 3 it decodes a packet and resets `have` to
0.  The decode emits, in order: three `NI_EV_KEY` button events (one
per primary button, carrying the current button state), six guarded
unified `NI_EV_MOUSE` button events (exactly three fire), the two
`NI_EV_REL` motion events with the Y delta negated, an optional
unified move event, and — under `have >= 4` — a wheel event. -/

/-- `(signed char)b` for an unsigned byte `b`. -/
def signedByte (b : Nat) : Int :=
  if b % 256 < 128 then (b % 256 : Int) else (b % 256 : Int) - 256

/-- `(btn & bit) ? 1 : 0`. -/
def btnVal (btn bit : Nat) : Int := if btn &&& bit ≠ 0 then 1 else 0

/-- The paired `if (btn & bit) {…=1…} if (!(btn & bit)) {…=0…}`
unified mouse-button emission for one button. -/
def mouseBtnEvents (t : Int) (btn bit : Nat) (ex : Int) : List NiEvent :=
  (if btn &&& bit ≠ 0 then
      [{ device_id := -2, type := NI_EV_MOUSE, code := NI_MOUSE_BUTTON,
         value := 1, timestamp_ns := t, extra := ex }]
    else [])
  ++ (if btn &&& bit = 0 then
      [{ device_id := -2, type := NI_EV_MOUSE, code := NI_MOUSE_BUTTON,
         value := 0, timestamp_ns := t, extra := ex }]
    else [])

/-- The body of `if (have >= 3) { … }` in `mice_worker`: decode one
packet (`haveN` is the value of `have` at that point). -/
def processPacket (t : Int) (pkt : List Nat) (haveN : Nat) : List NiEvent :=
  let btn := pkt.getD 0 0
  let dx := signedByte (pkt.getD 1 0)
  let dy := signedByte (pkt.getD 2 0)
  [ { device_id := -2, type := NI_EV_KEY, code := NI_BTN_LEFT,
      value := btnVal btn 1, timestamp_ns := t },
    { device_id := -2, type := NI_EV_KEY, code := NI_BTN_RIGHT,
      value := btnVal btn 2, timestamp_ns := t },
    { device_id := -2, type := NI_EV_KEY, code := NI_BTN_MIDDLE,
      value := btnVal btn 4, timestamp_ns := t } ]
  ++ mouseBtnEvents t btn 1 1 ++ mouseBtnEvents t btn 2 2 ++ mouseBtnEvents t btn 4 3
  ++ [ { device_id := -2, type := NI_EV_REL, code := NI_REL_X,
         value := dx, timestamp_ns := t },
       { device_id := -2, type := NI_EV_REL, code := NI_REL_Y,
         value := -dy, timestamp_ns := t } ]
  ++ (if dx ≠ 0 ∨ dy ≠ 0 then
       [ { device_id := -2, type := NI_EV_MOUSE, code := NI_MOUSE_MOVE,
           value := 0, timestamp_ns := t, x := dx, y := -dy } ]
      else [])
  ++ (if 4 ≤ haveN then
       [ { device_id := -2, type := NI_EV_REL, code := NI_REL_WHEEL,
           value := signedByte (pkt.getD 3 0), timestamp_ns := t } ]
      else [])

/-- The byte-consuming loop of `mice_worker`: `st` is the current
contents of `pkt[0..have)`. -/
def miceRun (t : Int) : List Nat → List Nat → List NiEvent
  | [], _ => []
  | b :: rest, st =>
    let pkt := st ++ [b]
    if 3 ≤ pkt.length then processPacket t pkt pkt.length ++ miceRun t rest []
    else miceRun t rest pkt

/-- Decoding a byte stream read from `/dev/input/mice`, starting with
an empty packet buffer (`have = 0`). -/
def miceDecode (t : Int) (bytes : List Nat) : List NiEvent := miceRun t bytes []

/-- A single decoded packet never contains a wheel event, because
`have` can only be 3 at decode time. -/
theorem filter_wheel_processPacket (t : Int) (pkt : List Nat) (hlen : pkt.length ≤ 3) :
    (processPacket t pkt pkt.length).filter
      (fun e => decide (e.type = NI_EV_REL ∧ e.code = NI_REL_WHEEL)) = [] := by
  have h4 : ¬ 4 ≤ pkt.length := by omega
  simp [processPacket, mouseBtnEvents, h4, NI_EV_KEY, NI_EV_REL, NI_EV_MOUSE,
        NI_REL_X, NI_REL_Y, NI_REL_WHEEL, NI_BTN_LEFT, NI_BTN_RIGHT, NI_BTN_MIDDLE,
        NI_MOUSE_BUTTON, NI_MOUSE_MOVE, List.filter_append, apply_ite (List.filter _)]

/-- The `mice_worker` loop never emits a wheel event: the packet
buffer is flushed as soon as it holds 3 bytes, so the `have >= 4`
wheel branch is unreachable. -/
theorem miceRun_no_wheel (t : Int) (bytes : List Nat) :
    ∀ st : List Nat, st.length ≤ 2 →
    (miceRun t bytes st).filter
      (fun e => decide (e.type = NI_EV_REL ∧ e.code = NI_REL_WHEEL)) = [] := by
  induction bytes with
  | nil => intro st h; simp [miceRun]
  | cons b rest ih =>
    intro st h
    by_cases h3 : 3 ≤ (st ++ [b]).length
    · simp only [miceRun, if_pos h3]
      rw [List.filter_append]
      rw [filter_wheel_processPacket t _ (by simp at h3 ⊢; omega), ih [] (by simp)]
      simp
    · simp only [miceRun, if_neg h3]
      exact ih (st ++ [b]) (by simp at h3 ⊢; omega)

/-- C2: the motion bytes of a packet are decoded into REL events for X
and Y with the Y delta sign-flipped (shown at the concrete 4-byte
IntelliMouse-style input `[8, 5, 250, 255]`, whose deltas are
`dx = 5`, `dy = -6`), but the optional fourth packet byte is NEVER
decoded into a wheel REL event: the `have >= 4` branch of
`mice_worker` is unreachable because the packet buffer is consumed as
soon as `have` reaches 3, so no byte stream whatsoever produces a
wheel event. -/
theorem mice_motion_decoded_but_wheel_unreachable :
    ((miceDecode 0 [8, 5, 250, 255]).filter (fun e => decide (e.type = NI_EV_REL)) =
      [ { device_id := -2, type := NI_EV_REL, code := NI_REL_X,
          value := 5, timestamp_ns := 0 },
        { device_id := -2, type := NI_EV_REL, code := NI_REL_Y,
          value := 6, timestamp_ns := 0 } ]) ∧
    ∀ (t : Int) (bytes : List Nat),
      (miceDecode t bytes).filter
        (fun e => decide (e.type = NI_EV_REL ∧ e.code = NI_REL_WHEEL)) = [] :=
  ⟨by decide, fun t bytes => miceRun_no_wheel t bytes [] (by simp)⟩

/-- C3 counterexample: two consecutive identical packets with no
button pressed.  Under the claim (per-packet button-mask diffing,
edges only) the decoded stream would contain no KEY event for
`BTN_LEFT` at all; the code emits one per packet, two in total. -/
theorem mice_buttons_unchanged_still_emit_key :
    ((miceDecode 0 [0, 0, 0, 0, 0, 0]).filter
      (fun e => decide (e.type = NI_EV_KEY ∧ e.code = NI_BTN_LEFT))).length = 2 := by
  decide

/-- C3 amended: the legacy pointer reader emits, for every 3-byte
packet, exactly one KEY event per primary button carrying the button's
current state (1 if the mask bit is set, 0 otherwise), independent of
the previous packet's button mask — level-triggered, not
edge-triggered.  Shown for an arbitrary pair of consecutive packets. -/
theorem mice_buttons_level_triggered (t : Int) (b1 b2 b3 c1 c2 c3 : Nat) :
    (miceDecode t [b1, b2, b3, c1, c2, c3]).filter (fun e => decide (e.type = NI_EV_KEY)) =
      [ ⟨-2, NI_EV_KEY, NI_BTN_LEFT, btnVal b1 1, t, 0, 0, 0⟩,
        ⟨-2, NI_EV_KEY, NI_BTN_RIGHT, btnVal b1 2, t, 0, 0, 0⟩,
        ⟨-2, NI_EV_KEY, NI_BTN_MIDDLE, btnVal b1 4, t, 0, 0, 0⟩,
        ⟨-2, NI_EV_KEY, NI_BTN_LEFT, btnVal c1 1, t, 0, 0, 0⟩,
        ⟨-2, NI_EV_KEY, NI_BTN_RIGHT, btnVal c1 2, t, 0, 0, 0⟩,
        ⟨-2, NI_EV_KEY, NI_BTN_MIDDLE, btnVal c1 4, t, 0, 0, 0⟩ ] := by
  simp [miceDecode, miceRun, processPacket, mouseBtnEvents, List.filter_append,
        apply_ite (List.filter _), NI_EV_KEY, NI_EV_REL, NI_EV_MOUSE,
        NI_REL_X, NI_REL_Y, NI_REL_WHEEL, NI_BTN_LEFT, NI_BTN_RIGHT, NI_BTN_MIDDLE,
        NI_MOUSE_BUTTON, NI_MOUSE_MOVE]

/-! ## The keymap layer (`maybe_emit_key_event`) -/

/-- Modelled from the spec: the UTF-8 `text` buffer of a Key Record is
a bounded buffer of "~32 bytes"; `struct ni_key_event` is declared in
the public header, which is not present under `src/`. -/
def TEXT_SIZE : Nat := 32

/-- The high-level key record (`struct ni_key_event`).  `text` is the
whole `TEXT_SIZE`-byte buffer. -/
structure NiKeyEvent where
  device_id : Int
  timestamp_ns : Int
  down : Int
  keysym : Nat
  mods : Nat
  text : List Nat
deriving DecidableEq, Repr

/-- Modelled from the spec: the result of `xkb_state_key_get_utf8`
(xkbcommon library, outside this repository) on the zero-initialised
buffer — it writes at most `TEXT_SIZE - 1` bytes of the produced text
`s` and always NUL-terminates, truncating silently; the remaining
bytes keep their zero initialisation. -/
def writeUtf8Buf (s : List Nat) : List Nat :=
  let w := s.take (TEXT_SIZE - 1)
  w ++ List.replicate (TEXT_SIZE - w.length) 0

/-- Modelled from the spec: the view of the xkbcommon keymap state
(library state outside this repository) used by
`maybe_emit_key_event` after `xkb_state_update_key` — the keysym and
the UTF-8 text it reports per keycode, and the current modifier
mask.  The claims quantify over arbitrary such states. -/
structure XkbView where
  getKeysym : Nat → Nat
  getUtf8 : Nat → List Nat
  modsMask : Nat

/-- `maybe_emit_key_event`: when the keymap layer is enabled, the
event is a KEY event, and an xkb state exists, emit exactly one key
record; otherwise emit nothing.  The evdev code is biased by +8 to
obtain the xkb keycode; `down` is `base->value ? 1 : 0`; the text is
fetched from the keymap on press only. -/
def maybe_emit_key_event (xkb_enabled : Bool) (st : Option XkbView)
    (base : NiEvent) : List NiKeyEvent :=
  if xkb_enabled = false then []
  else if base.type ≠ NI_EV_KEY then []
  else
    match st with
    | none => []
    | some v =>
      let xkb_code : Nat := (base.code + 8).toNat
      [ { device_id := base.device_id,
          timestamp_ns := base.timestamp_ns,
          down := if base.value ≠ 0 then 1 else 0,
          keysym := v.getKeysym xkb_code,
          mods := v.modsMask,
          text := if base.value ≠ 0 then writeUtf8Buf (v.getUtf8 xkb_code)
                  else writeUtf8Buf [] } ]

/-- The buffer written by the keymap lookup always contains a NUL. -/
theorem zero_mem_writeUtf8Buf (s : List Nat) : 0 ∈ writeUtf8Buf s := by
  unfold writeUtf8Buf
  apply List.mem_append_right
  rw [List.mem_replicate]
  refine ⟨?_, rfl⟩
  have := List.length_take (TEXT_SIZE - 1) s
  simp [TEXT_SIZE] at this ⊢
  omega

/-- C4: while the keymap is enabled, each KEY event processed by the
worker yields at most one key record; the record's `timestamp_ns`
equals the event's, its `down` flag is `value ? 1 : 0`, its UTF-8 text
is non-empty only on press, and the text buffer always contains a NUL
terminator. -/
theorem key_record_matches_key_event
    (en : Bool) (st : Option XkbView) (base : NiEvent) (kev : NiKeyEvent)
    (hmem : kev ∈ maybe_emit_key_event en st base) :
    (maybe_emit_key_event en st base).length ≤ 1 ∧
    kev.timestamp_ns = base.timestamp_ns ∧
    kev.down = (if base.value ≠ 0 then 1 else 0) ∧
    (kev.text.getD 0 0 ≠ 0 → kev.down = 1) ∧
    (kev.down = 0 → kev.text.getD 0 0 = 0) ∧
    0 ∈ kev.text := by
  unfold maybe_emit_key_event at hmem ⊢
  by_cases hen : en = false
  · simp [hen] at hmem
  · rw [if_neg hen] at hmem ⊢
    by_cases hty : base.type ≠ NI_EV_KEY
    · simp [hty] at hmem
    · rw [if_neg hty] at hmem ⊢
      match st with
      | none => simp at hmem
      | some v =>
        simp only [List.mem_singleton] at hmem
        subst hmem
        dsimp only
        refine ⟨by simp, rfl, rfl, ?_, ?_, ?_⟩
        · intro hne
          by_cases hv : base.value ≠ 0
          · simp [hv]
          · rw [if_neg hv] at hne
            exact absurd (show (writeUtf8Buf []).getD 0 0 = 0 by decide) hne
        · intro hdown
          by_cases hv : base.value ≠ 0
          · rw [if_pos hv] at hdown
            exact absurd hdown (by decide)
          · rw [if_neg hv]
            decide
        · by_cases hv : base.value ≠ 0
          · rw [if_pos hv]
            exact zero_mem_writeUtf8Buf _
          · rw [if_neg hv]
            exact zero_mem_writeUtf8Buf _

/-- An xkb state view for the C4 witness: every key maps to keysym
113 with text `"q"`. -/
def xkbViewW : XkbView := ⟨fun _ => 113, fun _ => [113], 0⟩

/-- A concrete KEY press event (device 3, code 16, value 1, t=42). -/
def keyBaseW : NiEvent := ⟨3, 1, 16, 1, 42, 0, 0, 0⟩

/-- The key record `maybe_emit_key_event` produces for `keyBaseW`. -/
def keyRecW : NiKeyEvent := ⟨3, 42, 1, 113, 0, writeUtf8Buf [113]⟩

/-- Witness for C4 at a concrete press event. -/
theorem key_record_matches_key_event_witness :
    keyRecW ∈ maybe_emit_key_event true (some xkbViewW) keyBaseW ∧
    ((maybe_emit_key_event true (some xkbViewW) keyBaseW).length ≤ 1 ∧
     keyRecW.timestamp_ns = keyBaseW.timestamp_ns ∧
     keyRecW.down = (if keyBaseW.value ≠ 0 then 1 else 0) ∧
     (keyRecW.text.getD 0 0 ≠ 0 → keyRecW.down = 1) ∧
     (keyRecW.down = 0 → keyRecW.text.getD 0 0 = 0) ∧
     0 ∈ keyRecW.text) :=
  ⟨by decide,
   key_record_matches_key_event true (some xkbViewW) keyBaseW keyRecW (by decide)⟩

/-! ## The acquisition worker's evdev decode

For every `struct input_event` read from a device, the worker builds a
`struct ni_event` copying `type`, `code`, `value` and converting the
kernel timestamp `input_event.time` (a `timeval`) with
`(long long)tv_sec * 1000000000LL + (long long)tv_usec * 1000LL`. -/

/-- Two's-complement wrap-around of 64-bit `long long` arithmetic. -/
def wrap64 (x : Int) : Int := (x + 2 ^ 63) % 2 ^ 64 - 2 ^ 63

/-- The kernel packet (`struct input_event`): `time.tv_sec`,
`time.tv_usec`, and the `__u16 type`, `__u16 code`, `__s32 value`
fields. -/
structure InputEvent where
  tv_sec : Int
  tv_usec : Int
  type : Nat
  code : Nat
  value : Int
deriving DecidableEq, Repr

/-- The decode step of `worker` for one packet read from the device
with stable id `devid`. -/
def worker_decode (devid : Int) (iev : InputEvent) : NiEvent :=
  { device_id := devid,
    type := (iev.type : Int),
    code := (iev.code : Int),
    value := iev.value,
    timestamp_ns := wrap64 (wrap64 (iev.tv_sec * 1000000000) +
                            wrap64 (iev.tv_usec * 1000)) }

theorem wrap64_eq_of_bounds (x : Int) (h1 : -(2 ^ 63) ≤ x) (h2 : x < 2 ^ 63) :
    wrap64 x = x := by
  unfold wrap64
  rw [Int.emod_eq_of_lt (by omega) (by omega)]
  omega

/-- C8: for every packet the worker delivers, the event's
`timestamp_ns` is exactly `tv_sec * 10^9 + tv_usec * 10^3` (for any
timestamp a kernel can actually hand out — seconds up to `2^33`, a
microseconds field below `10^6` — the 64-bit arithmetic does not
wrap), and `type`, `code`, `value` are copied unmodified. -/
theorem worker_decode_exact
    (devid : Int) (iev : InputEvent)
    (hsec0 : 0 ≤ iev.tv_sec) (hsec : iev.tv_sec ≤ 2 ^ 33)
    (husec0 : 0 ≤ iev.tv_usec) (husec : iev.tv_usec < 1000000) :
    (worker_decode devid iev).timestamp_ns
        = iev.tv_sec * 1000000000 + iev.tv_usec * 1000 ∧
    (worker_decode devid iev).type = (iev.type : Int) ∧
    (worker_decode devid iev).code = (iev.code : Int) ∧
    (worker_decode devid iev).value = iev.value ∧
    (worker_decode devid iev).device_id = devid := by
  refine ⟨?_, rfl, rfl, rfl, rfl⟩
  unfold worker_decode
  dsimp only
  rw [wrap64_eq_of_bounds (iev.tv_sec * 1000000000) (by nlinarith) (by nlinarith),
      wrap64_eq_of_bounds (iev.tv_usec * 1000) (by nlinarith) (by nlinarith),
      wrap64_eq_of_bounds _ (by nlinarith) (by nlinarith)]

/-- Witness for C8: a key-press packet at `t = 1.0005s`. -/
theorem worker_decode_exact_witness :
    (0 ≤ (⟨1, 500, 1, 30, 1⟩ : InputEvent).tv_sec ∧
     (⟨1, 500, 1, 30, 1⟩ : InputEvent).tv_sec ≤ 2 ^ 33 ∧
     0 ≤ (⟨1, 500, 1, 30, 1⟩ : InputEvent).tv_usec ∧
     (⟨1, 500, 1, 30, 1⟩ : InputEvent).tv_usec < 1000000) ∧
    ((worker_decode 7 ⟨1, 500, 1, 30, 1⟩).timestamp_ns = 1000500000 ∧
     (worker_decode 7 ⟨1, 500, 1, 30, 1⟩).type = 1 ∧
     (worker_decode 7 ⟨1, 500, 1, 30, 1⟩).code = 30 ∧
     (worker_decode 7 ⟨1, 500, 1, 30, 1⟩).value = 1 ∧
     (worker_decode 7 ⟨1, 500, 1, 30, 1⟩).device_id = 7) :=
  ⟨⟨by decide, by decide, by decide, by decide⟩,
   worker_decode_exact 7 ⟨1, 500, 1, 30, 1⟩
     (by decide) (by decide) (by decide) (by decide)⟩

/-! ## The device registry

`g.devices[0..ndevi)` with `add_device_fd`, `remove_device_by_id`,
`scan_devices`, the create/move and delete paths of
`handle_inotify_event`, and the re-evaluation sweep of
`ni_set_device_filter`.  The OS is modelled by `Env.openInfo`: node
`N` (i.e. `/dev/input/eventN`) opens successfully and yields the
descriptor data `d` (name/bus/vendor/product/version as queried by
`fill_device_info`) exactly when `openInfo N = some d`. -/

/-- The `struct ni_device_info` passed to a filter predicate: the
stable id plus the opaque descriptor data. -/
structure DeviceInfo where
  id : Int
  desc : Nat
deriving DecidableEq, Repr

/-- One registry slot (`struct device`): the stable id and the
descriptor data reachable through its open fd. -/
structure Device where
  id : Int
  desc : Nat
deriving DecidableEq, Repr

/-- `ni_device_filter`: the acceptance predicate. -/
def DevFilter : Type := DeviceInfo → Bool

/-- The OS environment: which nodes open successfully, and what
`fill_device_info` reports for them. -/
structure Env where
  openInfo : Nat → Option Nat

/-- `open_device_filtered` for path `/dev/input/eventN`: the device id
deduced from the path is `N`; if a filter is installed it is consulted
with the filled-in info; returns the descriptor data on success. -/
def open_device_filtered (env : Env) (filter : Option DevFilter) (n : Nat) : Option Nat :=
  match env.openInfo n with
  | none => none
  | some d =>
    match filter with
    | none => some d
    | some f => if f ⟨(n : Int), d⟩ then some d else none

/-- `has_device_id`. -/
def has_device_id (devs : List Device) (id : Int) : Bool :=
  devs.any (fun dv => dv.id = id)

/-- `add_device_fd`: appends at index `ndevi` unconditionally. -/
def add_device_fd (devs : List Device) (id : Int) (d : Nat) : List Device :=
  devs ++ [⟨id, d⟩]

/-- `scan_devices`: for `i = 0 … MAX_DEVICES-1`, skip ids already
registered, try `open_device_filtered`, and add on success. -/
def scan_devices (env : Env) (filter : Option DevFilter) (devs : List Device) : List Device :=
  (List.range 128).foldl
    (fun ds (i : Nat) =>
      if has_device_id ds (i : Int) then ds
      else
        match open_device_filtered env filter i with
        | none => ds
        | some d => add_device_fd ds (i : Int) d)
    devs

/-- The `IN_CREATE` / `IN_MOVED_TO` path of `handle_inotify_event` for
a node named `eventN`: try to open it (through the filter) and add it
— without consulting `has_device_id`; on failure only the rescan
window is armed, which does not change the registry. -/
def handle_create (env : Env) (filter : Option DevFilter) (devs : List Device) (n : Nat) :
    List Device :=
  match open_device_filtered env filter n with
  | some d => add_device_fd devs (n : Int) d
  | none => devs

/-- `remove_device_by_id`: find the first slot with the id, overwrite
it with the last slot, shrink by one (`break` after the first hit). -/
def remove_device_by_id (devs : List Device) (id : Int) : List Device :=
  match devs.findIdx? (fun dv => dv.id = id) with
  | none => devs
  | some i => (devs.set i (devs.getLastD ⟨0, 0⟩)).dropLast

/-- The keep-test of `ni_set_device_filter`'s sweep:
`g.filter ? g.filter(&info, …) : 1`. -/
def keepFn (filter : Option DevFilter) (dv : Device) : Bool :=
  match filter with
  | none => true
  | some f => f ⟨dv.id, dv.desc⟩

/-- The downward re-evaluation loop of `ni_set_device_filter`
(`for (i = ndevi-1; i >= 0; i--)`), with the same swap-from-the-end
compaction as `remove_device_by_id`.  `i` is the loop counter plus
one. -/
def filter_sweep_from (keep : Device → Bool) : Nat → List Device → List Device
  | 0, ds => ds
  | i + 1, ds =>
    let ds' :=
      if h : i < ds.length then
        if keep (ds.get ⟨i, h⟩) then ds
        else (ds.set i (ds.getLastD ⟨0, 0⟩)).dropLast
      else ds
    filter_sweep_from keep i ds'

/-- The whole re-evaluation sweep, starting at `ndevi - 1`. -/
def filter_sweep (keep : Device → Bool) (ds : List Device) : List Device :=
  filter_sweep_from keep ds.length ds

/-- The initialized-engine path of `ni_set_device_filter`: install the
predicate, sweep out rejected devices, then re-run discovery. -/
def ni_set_device_filter_run (env : Env) (filter : Option DevFilter)
    (devs : List Device) : List Device :=
  scan_devices env filter (filter_sweep (keepFn filter) devs)

/-- One registry transition the worker can perform: a discovery pass
(inside a rescan window), an `IN_CREATE`/`IN_MOVED_TO` notification
for `eventN`, or an `IN_DELETE` notification. -/
inductive RegistryStep (env : Env) (filter : Option DevFilter) :
    List Device → List Device → Prop
  | scan (ds : List Device) :
      RegistryStep env filter ds (scan_devices env filter ds)
  | create (ds : List Device) (n : Nat) :
      RegistryStep env filter ds (handle_create env filter ds n)
  | delete (ds : List Device) (n : Int) :
      RegistryStep env filter ds (remove_device_by_id ds n)

/-- Registry states reachable from `ni_init`'s initial scan by worker
transitions. -/
inductive RegistryReachable (env : Env) (filter : Option DevFilter) :
    List Device → Prop
  | init : RegistryReachable env filter (scan_devices env filter [])
  | step {ds ds' : List Device} : RegistryReachable env filter ds →
      RegistryStep env filter ds ds' → RegistryReachable env filter ds'

/-- An environment in which only `/dev/input/event3` exists. -/
def envOnly3 : Env := ⟨fun n => if n = 3 then some 7 else none⟩

/-- An environment in which every probed node opens successfully. -/
def envAll : Env := ⟨fun _ => some 0⟩

set_option maxRecDepth 100000 in
/-- C5 refutation: the registry invariant fails on reachable states.
With only `event3` present, the initial scan registers id 3 and a
subsequently processed queued `IN_CREATE` notification for `event3`
registers id 3 again (`handle_inotify_event` never consults
`has_device_id`), so the stable ids are not pairwise distinct.  And
with 128 nodes registered by the scan, an `IN_CREATE` for `event200`
pushes the count to 129 > 128 (`add_device_fd` never checks
`MAX_DEVICES`; in C this write is out of bounds). -/
theorem registry_duplicate_id_and_overflow_reachable :
    (∃ ds, RegistryReachable envOnly3 none ds ∧ ¬ (ds.map Device.id).Nodup) ∧
    (∃ ds, RegistryReachable envAll none ds ∧ 128 < ds.length) := by
  constructor
  · refine ⟨handle_create envOnly3 none (scan_devices envOnly3 none []) 3,
      RegistryReachable.step RegistryReachable.init (RegistryStep.create _ 3), ?_⟩
    decide
  · refine ⟨handle_create envAll none (scan_devices envAll none []) 200,
      RegistryReachable.step RegistryReachable.init (RegistryStep.create _ 200), ?_⟩
    decide

/-- A list whose elements the keep-test all rejects is swept to
nothing by the downward re-evaluation loop. -/
theorem filter_sweep_from_all_rejected (keep : Device → Bool) :
    ∀ (i : Nat) (ds : List Device), i = ds.length →
    (∀ dv ∈ ds, keep dv = false) → filter_sweep_from keep i ds = [] := by
  intro i
  induction i with
  | zero =>
    intro ds hi _
    rw [filter_sweep_from]
    exact (List.length_eq_zero.mp hi.symm).symm ▸ rfl
  | succ m ih =>
    intro ds hi hrej
    have hm : m < ds.length := by omega
    have hne : ds ≠ [] := by
      intro h
      rw [h] at hi
      simp at hi
    have hkeep : keep (ds.get ⟨m, hm⟩) = false :=
      hrej _ (List.get_mem ds m hm)
    have hcond : ¬ (keep (ds.get ⟨m, hm⟩) = true) := by
      rw [hkeep]
      exact Bool.false_ne_true
    rw [filter_sweep_from]
    simp only [dif_pos hm, if_neg hcond]
    apply ih
    · rw [List.length_dropLast, List.length_set]
      omega
    · intro dv hdv
      have hdv' : dv ∈ ds.set m (ds.getLastD ⟨0, 0⟩) :=
        List.dropLast_subset _ hdv
      rcases List.mem_or_eq_of_mem_set hdv' with h | h
      · exact hrej dv h
      · subst h
        apply hrej
        rw [List.getLastD_eq_getLast?, List.getLast?_eq_getLast _ hne]
        simp only [Option.getD_some]
        exact List.getLast_mem hne

/-- A discovery pass in which the filter rejects every openable node
admits nothing. -/
theorem scan_devices_all_rejected (env : Env) (p : DevFilter)
    (henv : ∀ (n : Nat) (d : Nat), env.openInfo n = some d → p ⟨(n : Int), d⟩ = false) :
    scan_devices env (some p) [] = [] := by
  unfold scan_devices
  have hstep : ∀ (i : Nat),
      (if has_device_id [] (i : Int) then ([] : List Device)
       else match open_device_filtered env (some p) i with
            | none => []
            | some d => add_device_fd [] (i : Int) d) = [] := by
    intro i
    have hopen : open_device_filtered env (some p) i = none := by
      unfold open_device_filtered
      cases hoi : env.openInfo i with
      | none => rfl
      | some d => simp [henv i d hoi]
    simp [has_device_id, hopen]
  generalize List.range 128 = l
  induction l with
  | nil => rfl
  | cons a tl ih =>
    rw [List.foldl_cons, hstep a]
    exact ih

/-- C6: replacing the device filter with a predicate that rejects
every currently-open device (and every openable node of the quiescent
environment) removes all of them during `ni_set_device_filter`'s
sweep, and the re-run discovery pass admits nothing, so
`ni_device_count()` is 0 before `set_filter` returns, whatever the
prior registry contents. -/
theorem set_filter_rejecting_all_empties_registry
    (env : Env) (p : DevFilter) (devs : List Device)
    (hdev : ∀ dv ∈ devs, p ⟨dv.id, dv.desc⟩ = false)
    (henv : ∀ (n : Nat) (d : Nat), env.openInfo n = some d → p ⟨(n : Int), d⟩ = false) :
    ni_set_device_filter_run env (some p) devs = [] ∧
    (ni_set_device_filter_run env (some p) devs).length = 0 := by
  have hsweep : filter_sweep (keepFn (some p)) devs = [] := by
    apply filter_sweep_from_all_rejected _ _ _ rfl
    intro dv hdv
    simpa [keepFn] using hdev dv hdv
  unfold ni_set_device_filter_run
  rw [hsweep, scan_devices_all_rejected env p henv]
  exact ⟨rfl, rfl⟩

/-- An environment for the C6 witness where every node opens. -/
def envW : Env := ⟨fun _ => some 0⟩

/-- The reject-everything predicate for the C6 witness. -/
def rejectAll : DevFilter := fun _ => false

/-- Witness for C6: two registered devices, a predicate rejecting
everything. -/
theorem set_filter_rejecting_all_empties_registry_witness :
    (∀ dv ∈ ([⟨0, 0⟩, ⟨5, 2⟩] : List Device), rejectAll ⟨dv.id, dv.desc⟩ = false) ∧
    (∀ (n : Nat) (d : Nat), envW.openInfo n = some d → rejectAll ⟨(n : Int), d⟩ = false) ∧
    (ni_set_device_filter_run envW (some rejectAll) [⟨0, 0⟩, ⟨5, 2⟩] = [] ∧
     (ni_set_device_filter_run envW (some rejectAll) [⟨0, 0⟩, ⟨5, 2⟩]).length = 0) :=
  ⟨by decide, fun _ _ _ => rfl,
   set_filter_rejecting_all_empties_registry envW rejectAll _
     (by decide) (fun _ _ _ => rfl)⟩

/-! ## The public surface

The process-wide singleton `g` and the entry points the claims are
about: `ni_init`, `ni_set_device_filter`, `ni_register_callback`,
`ni_set_xkb_names`, `ni_enable_mice`, `ni_poll`,
`ni_poll_key_events`. -/

/-- The fields of `g` the claims touch.  `cbSet` records whether a raw
sink is registered, `miceThread` whether the legacy pointer thread was
started. -/
structure GState where
  initialized : Bool
  filter : Option DevFilter
  cbSet : Bool
  xkbEnabled : Bool
  xkbRules : String
  xkbModel : String
  xkbLayout : String
  xkbVariant : String
  xkbOptions : String
  miceEnabled : Bool
  miceThread : Bool
  devices : List Device

/-- `memset(&g, 0, sizeof(g))`. -/
def zeroState : GState :=
  ⟨false, none, false, false, "", "", "", "", "", false, false, []⟩

/-- OS facilities consulted by `ni_init`: whether `epoll_create1` and
`pthread_create` succeed, and which device nodes open. -/
structure InitEnv where
  epollOk : Bool
  threadOk : Bool
  openInfo : Nat → Option Nat

/-- `ni_init`: reject non-zero flags; a second init before shutdown is
a no-op returning 0; otherwise zero the whole of `g`, create the
multiplexer, run the initial scan (the filter is `NULL` — it was just
zeroed), install the default keymap names, and start the worker.  The
legacy pointer thread is started only if `g.mice_enabled` is set,
which the `memset` has just cleared. -/
def ni_init (env : InitEnv) (flags : Int) (s : GState) : Int × GState :=
  if flags ≠ 0 then (-1, s)
  else if s.initialized then (0, s)
  else
    if env.epollOk = false then (-1, zeroState)
    else
      if env.threadOk = false then
        (-1, { zeroState with
                 devices := scan_devices ⟨env.openInfo⟩ none [],
                 xkbRules := "evdev", xkbModel := "pc105", xkbLayout := "us" })
      else
        (0, { zeroState with
                initialized := true,
                devices := scan_devices ⟨env.openInfo⟩ none [],
                xkbRules := "evdev", xkbModel := "pc105", xkbLayout := "us" })

/-- `ni_set_device_filter`: install the predicate; before init nothing
else happens and 0 is returned; after init the registry is re-swept
and re-scanned. -/
def ni_set_device_filter (env : Env) (f : Option DevFilter) (s : GState) :
    Int × GState :=
  let s1 := { s with filter := f }
  if s1.initialized = false then (0, s1)
  else (0, { s1 with devices := ni_set_device_filter_run env f s1.devices })

/-- `ni_register_callback`: fails before init or with non-zero
flags. -/
def ni_register_callback (cbNonNull : Bool) (flags : Int) (s : GState) :
    Int × GState :=
  if s.initialized = false ∨ flags ≠ 0 then (-1, s)
  else (0, { s with cbSet := cbNonNull })

/-- `ni_enable_mice`: set the flag; before init return 0; after init
start the reader thread when needed (`threadOk` models
`pthread_create` success). -/
def ni_enable_mice (threadOk : Bool) (enabled : Bool) (s : GState) :
    Int × GState :=
  let s1 := { s with miceEnabled := enabled }
  if s1.initialized = false then (0, s1)
  else
    if enabled then
      if s1.miceThread then (0, s1)
      else if threadOk then (0, { s1 with miceThread := true })
      else (-1, { s1 with miceEnabled := false })
    else (0, s1)

/-- `ni_set_xkb_names` (xkbcommon build): copy each non-NULL name with
`snprintf` truncation into its fixed-size buffer; rebuild only if the
keymap layer is enabled (`buildOk` models keymap-build success). -/
def ni_set_xkb_names (rules model layout variant options : Option String)
    (buildOk : Bool) (s : GState) : Int × GState :=
  let s1 : GState :=
    { s with
        xkbRules := match rules with | some r => r.take 31 | none => s.xkbRules,
        xkbModel := match model with | some m => m.take 31 | none => s.xkbModel,
        xkbLayout := match layout with | some l => l.take 63 | none => s.xkbLayout,
        xkbVariant := match variant with | some v => v.take 31 | none => s.xkbVariant,
        xkbOptions := match options with | some o => o.take 127 | none => s.xkbOptions }
  if s1.xkbEnabled then (if buildOk then 0 else -1, s1) else (0, s1)

/-- `ni_poll`: validate arguments, then drain the raw-event ring. -/
def ni_poll (s_initialized : Bool) (evtsNull : Bool) (max_events : Int)
    (q : Ringbuf NiEvent) : Int × List NiEvent × Ringbuf NiEvent :=
  if s_initialized = false ∨ evtsNull = true ∨ max_events ≤ 0 then (-1, [], q)
  else
    let p := ring_pop_many q max_events.toNat
    ((p.1.length : Int), p.1, p.2)

/-- `ni_poll_key_events`: identical validation on the key-event
ring. -/
def ni_poll_key_events (s_initialized : Bool) (evtsNull : Bool) (max_events : Int)
    (q : Ringbuf NiKeyEvent) : Int × List NiKeyEvent × Ringbuf NiKeyEvent :=
  if s_initialized = false ∨ evtsNull = true ∨ max_events ≤ 0 then (-1, [], q)
  else
    let p := ring_pop_many q max_events.toNat
    ((p.1.length : Int), p.1, p.2)

/-- C7: `ni_poll` (and `ni_poll_key_events`) returns a negative value
exactly when the output buffer is NULL, `max` is non-positive, or the
engine is not initialized; otherwise it returns the number of events
copied out of the ring, which is non-negative. -/
theorem poll_negative_iff_invalid (init null : Bool) (max : Int)
    (q : Ringbuf NiEvent) (qk : Ringbuf NiKeyEvent) :
    ((ni_poll init null max q).1 < 0 ↔
      (init = false ∨ null = true ∨ max ≤ 0)) ∧
    (ni_poll init null max q).1 =
      (if init = false ∨ null = true ∨ max ≤ 0 then -1
       else ((ring_pop_many q max.toNat).1.length : Int)) ∧
    ((ni_poll_key_events init null max qk).1 < 0 ↔
      (init = false ∨ null = true ∨ max ≤ 0)) ∧
    (ni_poll_key_events init null max qk).1 =
      (if init = false ∨ null = true ∨ max ≤ 0 then -1
       else ((ring_pop_many qk max.toNat).1.length : Int)) := by
  by_cases hc : init = false ∨ null = true ∨ max ≤ 0
  · simp [ni_poll, ni_poll_key_events, hc]
  · simp [ni_poll, ni_poll_key_events, hc]

/-- On the success path (`epoll_create1` and `pthread_create` both
succeed), a first `ni_init` produces exactly the zeroed state with the
no-filter scan result, the default keymap names and the initialized
flag. -/
theorem ni_init_success_state (env : InitEnv) (s : GState)
    (hs : s.initialized = false) (hep : env.epollOk = true) (hth : env.threadOk = true) :
    ni_init env 0 s =
      (0, { zeroState with
              initialized := true,
              devices := scan_devices ⟨env.openInfo⟩ none [],
              xkbRules := "evdev", xkbModel := "pc105", xkbLayout := "us" }) := by
  unfold ni_init
  rw [if_neg (fun h => h rfl), hs]
  rw [if_neg Bool.false_ne_true]
  rw [hep, if_neg (by simp), hth, if_neg (by simp)]

/-- On the failure paths a first `ni_init` returns -1. -/
theorem ni_init_failure_neg (env : InitEnv) (s : GState)
    (hs : s.initialized = false)
    (hfail : env.epollOk = false ∨ env.threadOk = false) :
    (ni_init env 0 s).1 = -1 := by
  unfold ni_init
  rw [if_neg (fun h => h rfl), hs, if_neg Bool.false_ne_true]
  cases hep : env.epollOk with
  | false => rw [if_pos rfl]
  | true =>
    rw [if_neg (by simp)]
    rcases hfail with h | h
    · rw [hep] at h
      exact absurd h (by simp)
    · rw [h, if_pos rfl]

set_option maxRecDepth 8192 in
/-- C10: a successful first `ni_init` zeroes the entire engine state
before starting the worker.  Pre-init configuration calls succeed
(`ni_set_device_filter`, `ni_enable_mice`, `ni_set_xkb_names` return
0) or are refused (`ni_register_callback` returns -1 leaving the state
unchanged), yet the result of `ni_init` is identical from every
non-initialized state: the installed filter is discarded — the initial
scan runs with no filter — no callback is set, the keymap names are
the defaults, and the legacy pointer reader is disabled and not
started. -/
theorem init_discards_preinit_configuration
    (env : InitEnv) (renv : Env) (s : GState) (f : Option DevFilter)
    (tOk cb en bOk : Bool) (fl : Int) (r m l v o : Option String)
    (hs : s.initialized = false) :
    (ni_set_device_filter renv f s).1 = 0 ∧
    (ni_enable_mice tOk en s).1 = 0 ∧
    (s.xkbEnabled = false → (ni_set_xkb_names r m l v o bOk s).1 = 0) ∧
    (ni_register_callback cb fl s = (-1, s)) ∧
    (∀ s' : GState, s'.initialized = false →
       ni_init env 0 s' = ni_init env 0 s) ∧
    ((ni_init env 0 s).1 = 0 →
       ((ni_init env 0 s).2.filter = none ∧
        (ni_init env 0 s).2.cbSet = false ∧
        (ni_init env 0 s).2.miceEnabled = false ∧
        (ni_init env 0 s).2.miceThread = false ∧
        (ni_init env 0 s).2.xkbRules = "evdev" ∧
        (ni_init env 0 s).2.xkbModel = "pc105" ∧
        (ni_init env 0 s).2.xkbLayout = "us" ∧
        (ni_init env 0 s).2.xkbVariant = "" ∧
        (ni_init env 0 s).2.xkbOptions = "" ∧
        (ni_init env 0 s).2.devices = scan_devices ⟨env.openInfo⟩ none [])) := by
  refine ⟨?_, ?_, ?_, ?_, ?_, ?_⟩
  · simp [ni_set_device_filter, hs]
  · simp [ni_enable_mice, hs]
  · intro hxe
    simp [ni_set_xkb_names, hxe]
  · simp [ni_register_callback, hs]
  · intro s' hs'
    simp [ni_init, hs, hs']
  · intro h0
    cases hep : env.epollOk with
    | false =>
      rw [ni_init_failure_neg env s hs (Or.inl hep)] at h0
      exact absurd h0 (by simp)
    | true =>
      cases hth : env.threadOk with
      | false =>
        rw [ni_init_failure_neg env s hs (Or.inr hth)] at h0
        exact absurd h0 (by simp)
      | true =>
        rw [ni_init_success_state env s hs hep hth]
        dsimp only [zeroState]
        exact ⟨rfl, rfl, rfl, rfl, rfl, rfl, rfl, rfl, rfl, rfl⟩

/-- A non-initialized state with a filter, keymap names and the mice
flag installed, for the C10 witness. -/
def preInitStateW : GState :=
  ⟨false, some rejectAll, false, false, "r", "m", "l", "v", "o", true, false, []⟩

/-- An init environment for the C10 witness in which everything
succeeds and only `event3` exists. -/
def initEnvW : InitEnv := ⟨true, true, fun n => if n = 3 then some 7 else none⟩

set_option maxRecDepth 100000 in
/-- Witness for C10 at a concrete pre-configured state. -/
theorem init_discards_preinit_configuration_witness :
    preInitStateW.initialized = false ∧
    ((ni_set_device_filter envW (some rejectAll) preInitStateW).1 = 0 ∧
     (ni_enable_mice true true preInitStateW).1 = 0 ∧
     (preInitStateW.xkbEnabled = false →
       (ni_set_xkb_names (some "a") none none none none true preInitStateW).1 = 0) ∧
     (ni_register_callback true 0 preInitStateW = (-1, preInitStateW)) ∧
     (∀ s' : GState, s'.initialized = false →
        ni_init initEnvW 0 s' = ni_init initEnvW 0 preInitStateW) ∧
     ((ni_init initEnvW 0 preInitStateW).1 = 0 →
        ((ni_init initEnvW 0 preInitStateW).2.filter = none ∧
         (ni_init initEnvW 0 preInitStateW).2.cbSet = false ∧
         (ni_init initEnvW 0 preInitStateW).2.miceEnabled = false ∧
         (ni_init initEnvW 0 preInitStateW).2.miceThread = false ∧
         (ni_init initEnvW 0 preInitStateW).2.xkbRules = "evdev" ∧
         (ni_init initEnvW 0 preInitStateW).2.xkbModel = "pc105" ∧
         (ni_init initEnvW 0 preInitStateW).2.xkbLayout = "us" ∧
         (ni_init initEnvW 0 preInitStateW).2.xkbVariant = "" ∧
         (ni_init initEnvW 0 preInitStateW).2.xkbOptions = "" ∧
         (ni_init initEnvW 0 preInitStateW).2.devices
            = scan_devices ⟨initEnvW.openInfo⟩ none []))) :=
  ⟨rfl,
   init_discards_preinit_configuration initEnvW envW preInitStateW
     (some rejectAll) true true true true 0 (some "a") none none none none rfl⟩

end Asyncinput
